import Mathlib

/-!
# Verification of the `eopf-safe-2-healpix` notebook helpers

A shallow embedding, in Lean 4, of the original Python code of the notebook
`src/notebook/cdse-stac-eopf-to-zarr.ipynb`: the `S3Connector` constructor, the
`extract_s3_path_from_url` URI-to-key transform, and the `download`
recursive-copy routine, together with the library functions they call
(`urllib.parse.urlparse`, `os.path.basename` / `dirname` / `join` / `relpath`,
`str.startswith` / `endswith` / `lstrip` / `rstrip`).

Python strings are modelled as `List Char`; the object store is a list of keys;
filesystem effects are recorded explicitly (files written, directories created);
a per-key oracle models whether an individual S3 transfer succeeds.
-/

/-- A Python string, modelled as its list of characters. -/
abbrev PyStr := List Char

/-- `str.startswith`: `startsWithList pat s` is true when `pat` is an initial
segment of `s`. -/
def startsWithList : PyStr → PyStr → Bool
  | [], _ => true
  | _ :: _, [] => false
  | a :: as, b :: bs => a == b && startsWithList as bs

/-- `str.endswith`: `endsWithList s pat` is true when `pat` is a final segment
of `s`. -/
def endsWithList (s pat : PyStr) : Bool :=
  startsWithList pat.reverse s.reverse

/-- `s.lstrip('/')`: remove leading `'/'` characters. -/
def lstripSlash (s : PyStr) : PyStr := s.dropWhile (fun c => c == '/')

/-- `s.rstrip('/')`: remove trailing `'/'` characters. -/
def rstripSlash (s : PyStr) : PyStr :=
  (s.reverse.dropWhile (fun c => c == '/')).reverse

/-! ## `urllib.parse.urlparse`

The notebook calls `urlparse` only on strings that start with `s3://`; since
the scheme `'s3'` is not in `urllib.parse.uses_params`, `urlparse` never splits
parameters for these URLs and coincides with `urlsplit`.  We embed the
`urlsplit` algorithm of CPython 3.11 (the interpreter version pinned by the
repository): strip leading C0-control/space characters, remove every tab, CR
and LF, split off a scheme when the prefix before the first `':'` is a valid
scheme token, take the authority (netloc) after `'//'` up to the next `'/'`,
`'?'` or `'#'`, reject an authority with unbalanced square brackets
(`ValueError: Invalid IPv6 URL`), and split off fragment (first `'#'`) and then
query (first `'?'`).  The NFKC check on non-ASCII authorities is not modelled.
-/

/-- Leading WHATWG C0-control-or-space strip performed by `urlsplit`. -/
def lstripC0 (s : PyStr) : PyStr := s.dropWhile (fun c => c.toNat ≤ 32)

/-- Removal of the unsafe URL bytes tab, CR and LF performed by `urlsplit`. -/
def removeUnsafe (s : PyStr) : PyStr :=
  s.filter (fun c => !(c == '\t' || c == '\r' || c == '\n'))

/-- Characters allowed in a URL scheme (`urllib.parse.scheme_chars`). -/
def schemeChar (c : Char) : Bool :=
  c.isAlpha || c.isDigit || c == '+' || c == '-' || c == '.'

/-- Characters ending the netloc component (`urllib.parse._splitnetloc`). -/
def netlocDelim (c : Char) : Bool := c == '/' || c == '?' || c == '#'

/-- Result of `urlsplit` / `urlparse` (params component always empty for the
`s3` scheme, hence omitted). -/
structure SplitUrl where
  scheme : PyStr
  netloc : PyStr
  path : PyStr
  query : PyStr
  fragment : PyStr
  deriving DecidableEq, Repr

/-- Scheme extraction step of `urlsplit`: if the text before the first `':'`
is a nonempty valid scheme token starting with an ASCII letter, it is the
(lower-cased) scheme and parsing continues after the colon; otherwise the
scheme is empty and the whole input remains. -/
def splitScheme (url : PyStr) : PyStr × PyStr :=
  let pre := url.takeWhile (fun c => c != ':')
  match url.dropWhile (fun c => c != ':') with
  | [] => ([], url)
  | _ :: after =>
    if !pre.isEmpty && (pre.headD ' ').isAlpha && pre.all schemeChar then
      (pre.map Char.toLower, after)
    else ([], url)

/-- The `urlsplit` bracket validation: `('[' in netloc and ']' not in netloc)
or (']' in netloc and '[' not in netloc)`. -/
def badBrackets (netloc : PyStr) : Bool :=
  (netloc.contains '[' && !netloc.contains ']') ||
  (netloc.contains ']' && !netloc.contains '[')

/-- The bracketed host text validated by `_check_bracketed_host`:
`netloc.partition('[')[2].partition(']')[0]`. -/
def bracketedHost (netloc : PyStr) : PyStr :=
  ((netloc.dropWhile (fun c => c != '[')).drop 1).takeWhile (fun c => c != ']')

/-- `str.isascii`: every character has a code point below 128. -/
def isAsciiStr (s : PyStr) : Bool := s.all (fun c => c.toNat < 128)

/-- Condition under which the `_check_bracketed_host` call raises: the
authority contains a (balanced) bracket pair — `'[' in netloc and ']' in
netloc` — whose bracketed content fails the host validator. -/
def bracketedHostFails (hostOk : PyStr → Bool) (netloc : PyStr) : Bool :=
  netloc.contains '[' && netloc.contains ']' && !hostOk (bracketedHost netloc)

/-- Condition under which `_checknetloc(netloc)` raises: the authority is
nonempty and not ASCII (its two early returns), and the NFKC validator
fails. -/
def checknetlocFails (nfkcOk : PyStr → Bool) (netloc : PyStr) : Bool :=
  !netloc.isEmpty && !isAsciiStr netloc && !nfkcOk netloc

/-- Outcome of `urlsplit`: a parse, or one of its three `ValueError`s —
`"Invalid IPv6 URL"` (unbalanced brackets), a `_check_bracketed_host` failure
(a balanced bracketed host that is not a valid IPv6 address or IPvFuture
literal), or a `_checknetloc` failure (a non-ASCII authority whose NFKC
normalization introduces a separator character). -/
inductive UrlSplitOutcome where
  | ok (p : SplitUrl)
  | invalidIPv6
  | invalidBracketedHost
  | invalidNetlocNFKC
  deriving DecidableEq, Repr

/-- `urllib.parse.urlsplit` (CPython 3.11.4, the interpreter version pinned by
the repository).  The two validations whose bodies live outside `urlsplit` are
abstracted as boolean parameters, so every theorem below is quantified over
them and holds in particular for the true validators:

* `hostOk h` models `_check_bracketed_host(h)` not raising — `h` is a valid
  IPv6 address (`ipaddress.ip_address`, whose grammar is not re-derived here)
  or an IPvFuture literal; it is consulted exactly when the authority contains
  both `'['` and `']'`;
* `nfkcOk netloc` models `_checknetloc(netloc)` not raising on a non-ASCII
  authority (the NFKC normalization table is not re-derived here); the ASCII
  and empty short-circuits of `_checknetloc` are modelled concretely, so
  `nfkcOk` is consulted exactly when the authority is nonempty and
  non-ASCII. -/
def urlsplit (hostOk nfkcOk : PyStr → Bool) (url0 : PyStr) : UrlSplitOutcome :=
  let url := removeUnsafe (lstripC0 url0)
  let sr := splitScheme url
  let nr :=
    match sr.2 with
    | '/' :: '/' :: r =>
      (r.takeWhile (fun c => !netlocDelim c), r.dropWhile (fun c => !netlocDelim c))
    | other => ([], other)
  if badBrackets nr.1 then
    .invalidIPv6
  else if bracketedHostFails hostOk nr.1 then
    .invalidBracketedHost
  else
    let beforeHash := nr.2.takeWhile (fun c => c != '#')
    let fragment := (nr.2.dropWhile (fun c => c != '#')).drop 1
    let path := beforeHash.takeWhile (fun c => c != '?')
    let query := (beforeHash.dropWhile (fun c => c != '?')).drop 1
    if checknetlocFails nfkcOk nr.1 then
      .invalidNetlocNFKC
    else
      .ok ⟨sr.1, nr.1, path, query, fragment⟩

/-- `urllib.parse.urlparse`, for the URLs the notebook feeds it: equal to
`urlsplit`, since the `s3` scheme is not in `uses_params` and thus the params
component is never split off. -/
def urlparse (hostOk nfkcOk : PyStr → Bool) (url : PyStr) : UrlSplitOutcome :=
  urlsplit hostOk nfkcOk url

/-- Outcome of `extract_s3_path_from_url`: either a returned string, or the
function's own `ValueError` (non-`s3` scheme), or one of the three
`ValueError`s raised inside `urlparse` and propagating out. -/
inductive UrlResult where
  | ok (path : PyStr)
  | schemeValueError
  | bracketValueError
  | bracketedHostValueError
  | nfkcValueError
  deriving DecidableEq, Repr

/-- The notebook's `extract_s3_path_from_url`: return non-`s3://` inputs
unchanged; otherwise parse with `urlparse` (whose own `ValueError`s
propagate), raise `ValueError` when the parsed scheme is not `'s3'`, and
return the parsed path with leading slashes stripped.  The `hostOk`/`nfkcOk`
validators of `urlsplit` are passed through. -/
def extract_s3_path_from_url (hostOk nfkcOk : PyStr → Bool) (url : PyStr) : UrlResult :=
  if !startsWithList ("s3://".data) url then .ok url
  else
    match urlparse hostOk nfkcOk url with
    | .invalidIPv6 => .bracketValueError
    | .invalidBracketedHost => .bracketedHostValueError
    | .invalidNetlocNFKC => .nfkcValueError
    | .ok p =>
      if p.scheme ≠ "s3".data then .schemeValueError
      else .ok (lstripSlash p.path)

/-! ## POSIX path helpers (`os.path` on the notebook's Linux environment) -/

/-- `os.path.basename`: the part after the last `'/'`. -/
def basename (p : PyStr) : PyStr :=
  (p.reverse.takeWhile (fun c => c != '/')).reverse

/-- `os.path.dirname`: the part up to (and including) the last `'/'`, with
trailing slashes then stripped unless the result is all slashes. -/
def dirname (p : PyStr) : PyStr :=
  let head := (p.reverse.dropWhile (fun c => c != '/')).reverse
  if head.isEmpty || head.all (fun c => c == '/') then head else rstripSlash head

/-- `os.path.join(a, b)` for two arguments: `b` if it is absolute, otherwise
`a` and `b` glued with a single separator. -/
def pyJoin (a b : PyStr) : PyStr :=
  if startsWithList ['/'] b then b
  else if a.isEmpty || endsWithList a ['/'] then a ++ b
  else a ++ '/' :: b

/-- Split a path into its nonempty `'/'`-separated components:
`[x for x in p.split('/') if x]`.  `cur` accumulates the current component in
reverse. -/
def compsAux : PyStr → PyStr → List PyStr
  | cur, [] => if cur.isEmpty then [] else [cur.reverse]
  | cur, c :: cs =>
    if c = '/' then
      if cur.isEmpty then compsAux [] cs else cur.reverse :: compsAux [] cs
    else compsAux (c :: cur) cs

/-- One step of lexical path normalization on an absolute component list
(`posixpath.normpath`): `'.'` is dropped, `'..'` removes the previous
component (and is dropped at the root), anything else is appended. -/
def resolveComp (acc : List PyStr) (c : PyStr) : List PyStr :=
  if c = ".".data then acc
  else if c = "..".data then acc.dropLast
  else acc ++ [c]

/-- Normalize a component list against an (already normalized, absolute)
base. -/
def resolveComps (base : List PyStr) (cs : List PyStr) : List PyStr :=
  cs.foldl resolveComp base

/-- Component list of `os.path.abspath(p)` — `normpath(join(getcwd(), p))` —
as used by `posixpath.relpath`.  `cwd` is the normalized component list of the
current working directory; it is ignored when `p` is absolute. -/
def absComps (cwd : List PyStr) (p : PyStr) : List PyStr :=
  resolveComps (if startsWithList ['/'] p then [] else cwd) (compsAux [] p)

/-- Length of the longest common initial segment of two component lists
(`os.path.commonprefix` applied to lists). -/
def commonPrefixLen : List PyStr → List PyStr → Nat
  | a :: as, b :: bs => if a = b then commonPrefixLen as bs + 1 else 0
  | _, _ => 0

/-- Join relative, slash-free components with `'/'`
(`posixpath.join(*rel_list)` on such components). -/
def joinSlash : List PyStr → PyStr
  | [] => []
  | [p] => p
  | p :: ps => p ++ '/' :: joinSlash ps

/-- `os.path.relpath(path, start)` (POSIX): compare the normalized absolute
component lists of `path` and `start` and climb out of the non-shared part of
`start` with `'..'` components.  (`relpath` raises on an empty `path`;
`download` only calls it on keys extending the nonempty slash-terminated
product prefix, which are never empty.) -/
def relpath (cwd : List PyStr) (path start : PyStr) : PyStr :=
  let pathList := absComps cwd path
  let startList := absComps cwd start
  let i := commonPrefixLen startList pathList
  let relList := List.replicate (startList.length - i) ("..".data) ++ pathList.drop i
  if relList.isEmpty then ".".data else joinSlash relList

/-! ## The `download` routine

`download(bucket, product, target)` is embedded with the object store as the
flat list of the bucket's keys (`bucket.objects.filter(Prefix=product)`
becomes a filter over it, preserving listing order), the working directory as
a normalized absolute component list (consumed by `os.path.relpath` via
`os.path.abspath`), and a per-key oracle `ok` telling whether
`bucket.download_file` succeeds on that key.  The outcome records the result
(return value or raised exception), the local files written and the
directories passed to `os.makedirs`, in order. -/

/-- Result of a `download` call: the returned local path, or one of the raised
exceptions (`FileNotFoundError`, `ValueError`, or the exception propagating
out of a failed `bucket.download_file` on `key`). -/
inductive DlResult where
  | ok (path : PyStr)
  | fileNotFoundError
  | valueError
  | transferError (key : PyStr)
  deriving DecidableEq, Repr

/-- Observable outcome of `download`: result, files written, directories
created (each in program order). -/
structure DlOutcome where
  result : DlResult
  written : List PyStr
  dirs : List PyStr
  deriving DecidableEq, Repr

/-- The slash-terminated product prefix: `if not product.endswith('/'):
product += '/'`. -/
def productSlash (product : PyStr) : PyStr :=
  if endsWithList product ['/'] then product else product ++ ['/']

/-- `files = list(bucket.objects.filter(Prefix=product))`: the bucket keys
extending the slash-terminated prefix, in listing order. -/
def listedFiles (bucketKeys : List PyStr) (product : PyStr) : List PyStr :=
  bucketKeys.filter (fun k => startsWithList (productSlash product) k)

/-- `safe_dir = os.path.basename(product.rstrip('/'))`. -/
def safeDirOf (product : PyStr) : PyStr :=
  basename (rstripSlash (productSlash product))

/-- `local_path = os.path.join(target, safe_dir)`. -/
def localPathOf (product target : PyStr) : PyStr :=
  pyJoin target (safeDirOf product)

/-- Keys that are not S3 directory markers (the loop's
`if file.key.endswith('/'): continue`). -/
def nonDirKey (k : PyStr) : Bool := !endsWithList k ['/']

/-- The `for file in files` loop of `download`: skip directory markers,
compute `relative_path`/`local_file_path`, create the parent directory, then
transfer.  Returns the files written, the directories created, and the key on
which the first failing transfer raised (if any); a failure stops the loop. -/
def dlLoop (cwd : List PyStr) (product localPath : PyStr) (ok : PyStr → Bool) :
    List PyStr → List PyStr × List PyStr × Option PyStr
  | [] => ([], [], none)
  | k :: ks =>
    if !nonDirKey k then dlLoop cwd product localPath ok ks
    else
      let localFilePath := pyJoin localPath (relpath cwd k product)
      if ok k then
        let r := dlLoop cwd product localPath ok ks
        (localFilePath :: r.1, dirname localFilePath :: r.2.1, r.2.2)
      else ([], [dirname localFilePath], some k)

/-- The notebook's `download(bucket, product, target)`. -/
def download (bucketKeys : List PyStr) (cwd : List PyStr) (product target : PyStr)
    (ok : PyStr → Bool) : DlOutcome :=
  if (listedFiles bucketKeys product).isEmpty then ⟨.fileNotFoundError, [], []⟩
  else if !endsWithList (safeDirOf product) (".SAFE".data) then ⟨.valueError, [], []⟩
  else
    let r := dlLoop cwd (productSlash product) (localPathOf product target) ok
      (listedFiles bucketKeys product)
    match r.2.2 with
    | some k => ⟨.transferError k, r.1, localPathOf product target :: r.2.1⟩
    | none => ⟨.ok (localPathOf product target), r.1, localPathOf product target :: r.2.1⟩

/-! ## The `S3Connector` class -/

/-- Arguments of one `session.resource('s3', ...)`/`session.client('s3', ...)`
factory call. -/
structure FactoryCall where
  service : PyStr
  endpoint_url : PyStr
  aws_access_key_id : PyStr
  aws_secret_access_key : PyStr
  region_name : PyStr
  deriving DecidableEq, Repr

/-- State built by `S3Connector.__init__`: the four stored connection fields
and the argument lists of the two factory calls. -/
structure S3Connector where
  endpoint_url : PyStr
  access_key_id : PyStr
  secret_access_key : PyStr
  region_name : PyStr
  resource_call : FactoryCall
  client_call : FactoryCall
  deriving DecidableEq, Repr

/-- `S3Connector.__init__(endpoint_url, access_key_id, secret_access_key,
region_name)`: store the four parameters and forward them to the two `'s3'`
factory calls. -/
def S3Connector.init (endpoint_url access_key_id secret_access_key region_name : PyStr) :
    S3Connector :=
  { endpoint_url := endpoint_url
    access_key_id := access_key_id
    secret_access_key := secret_access_key
    region_name := region_name
    resource_call :=
      ⟨"s3".data, endpoint_url, access_key_id, secret_access_key, region_name⟩
    client_call :=
      ⟨"s3".data, endpoint_url, access_key_id, secret_access_key, region_name⟩ }

/-- `S3Connector.__init__` with the `region_name='default'` default
argument. -/
def S3Connector.initDefault (endpoint_url access_key_id secret_access_key : PyStr) :
    S3Connector :=
  S3Connector.init endpoint_url access_key_id secret_access_key ("default".data)

/-- Whether a `UrlResult` is the `ValueError` raised by the function's own
non-`s3`-scheme guard. -/
def UrlResult.isSchemeError : UrlResult → Bool
  | .schemeValueError => true
  | _ => false

/-! ## Lemmas about the string primitives -/

theorem startsWithList_append (p r : PyStr) : startsWithList p (p ++ r) = true := by
  induction p with
  | nil => rfl
  | cons c cs ih => simp [startsWithList, ih]

theorem exists_of_startsWithList : ∀ {p s : PyStr}, startsWithList p s = true →
    ∃ r, s = p ++ r := by
  intro p
  induction p with
  | nil => exact fun h => ⟨_, rfl⟩
  | cons c cs ih =>
    intro s h
    cases s with
    | nil => simp [startsWithList] at h
    | cons b bs =>
      simp only [startsWithList, Bool.and_eq_true, beq_iff_eq] at h
      obtain ⟨r, hr⟩ := ih h.2
      exact ⟨r, by simp [h.1, hr]⟩

/-! ## Symbolic evaluation of `urlsplit` on `s3://` URLs -/

theorem urlsplit_s3 (hostOk nfkcOk : PyStr → Bool) (rest : PyStr) :
    urlsplit hostOk nfkcOk ("s3://".data ++ rest) =
      (let r := removeUnsafe rest
       let netloc := r.takeWhile (fun c => !netlocDelim c)
       let after := r.dropWhile (fun c => !netlocDelim c)
       if badBrackets netloc then .invalidIPv6
       else if bracketedHostFails hostOk netloc then .invalidBracketedHost
       else if checknetlocFails nfkcOk netloc then .invalidNetlocNFKC
       else
         .ok ⟨"s3".data, netloc,
           (after.takeWhile (fun c => c != '#')).takeWhile (fun c => c != '?'),
           ((after.takeWhile (fun c => c != '#')).dropWhile (fun c => c != '?')).drop 1,
           (after.dropWhile (fun c => c != '#')).drop 1⟩) := by
  rfl

/-! ## Claims about `extract_s3_path_from_url` -/

/-- C4: for every string `url` that does not start with `'s3://'`,
`extract_s3_path_from_url(url)` returns `url` unchanged (for any behavior of
the host validators consulted only inside `urlparse`). -/
theorem extract_non_s3_unchanged (hostOk nfkcOk : PyStr → Bool) (url : PyStr)
    (h : startsWithList ("s3://".data) url = false) :
    extract_s3_path_from_url hostOk nfkcOk url = UrlResult.ok url := by
  simp [extract_s3_path_from_url, h]

theorem extract_non_s3_unchanged_witness :
    startsWithList ("s3://".data) ("https://example.com/x".data) = false ∧
    extract_s3_path_from_url (fun _ => true) (fun _ => true)
        ("https://example.com/x".data) =
      UrlResult.ok ("https://example.com/x".data) :=
  ⟨by decide, extract_non_s3_unchanged (fun _ => true) (fun _ => true)
    ("https://example.com/x".data) (by decide)⟩

/-- C5 counterexample: on the docstring's own example URI the function does
not return "the remainder after `'s3://'` with leading slashes stripped" — it
also removes the bucket (authority) component `eodata`.  (The authority here
is bracket-free and ASCII, so the validators are never consulted.) -/
theorem extract_strip_scheme_counterexample :
    startsWithList ("s3://".data) ("s3://eodata/path/to/file.jp2".data) = true ∧
    extract_s3_path_from_url (fun _ => true) (fun _ => true)
        ("s3://eodata/path/to/file.jp2".data) ≠
      UrlResult.ok
        ((("s3://eodata/path/to/file.jp2".data).drop ("s3://".data).length).dropWhile
          (fun c => c == '/')) ∧
    extract_s3_path_from_url (fun _ => true) (fun _ => true)
        ("s3://eodata/path/to/file.jp2".data) =
      UrlResult.ok ("path/to/file.jp2".data) := by
  decide

/-- C5 (amended): for every `url` starting with `'s3://'`, after the removal
of tab/CR/LF characters the parser drops the scheme and the authority (bucket)
component — everything up to the next `'/'`, `'?'` or `'#'` — and, when the
authority passes `urlparse`'s validations, the function returns the remaining
path truncated at the first `'?'` or `'#'`, with leading slashes stripped.
`urlparse` raises `ValueError` instead when the authority has unbalanced
square brackets, when a balanced bracketed host fails
`_check_bracketed_host`, or when a nonempty non-ASCII authority fails the
`_checknetloc` NFKC check. -/
theorem extract_s3_path_result (hostOk nfkcOk : PyStr → Bool) (rest : PyStr) :
    extract_s3_path_from_url hostOk nfkcOk ("s3://".data ++ rest) =
      (let r := removeUnsafe rest
       let netloc := r.takeWhile (fun c => !netlocDelim c)
       let after := r.dropWhile (fun c => !netlocDelim c)
       if badBrackets netloc then
         UrlResult.bracketValueError
       else if bracketedHostFails hostOk netloc then
         UrlResult.bracketedHostValueError
       else if checknetlocFails nfkcOk netloc then
         UrlResult.nfkcValueError
       else
         UrlResult.ok
           (lstripSlash
             ((after.takeWhile (fun c => c != '#')).takeWhile (fun c => c != '?')))) := by
  have h5 := startsWithList_append ("s3://".data) rest
  simp only [extract_s3_path_from_url, h5, Bool.not_true, Bool.false_eq_true, if_false,
    urlparse]
  rw [urlsplit_s3]
  by_cases hb : badBrackets ((removeUnsafe rest).takeWhile (fun c => !netlocDelim c)) = true
  · simp [hb]
  · by_cases hh : bracketedHostFails hostOk
        ((removeUnsafe rest).takeWhile (fun c => !netlocDelim c)) = true
    · simp [hb, hh]
    · by_cases hn : checknetlocFails nfkcOk
          ((removeUnsafe rest).takeWhile (fun c => !netlocDelim c)) = true
      · simp [hb, hh, hn]
      · simp [hb, hh, hn]

/-- C10 counterexample: `extract_s3_path_from_url` can raise: on
`'s3://[x'` the call to `urlparse` raises `ValueError("Invalid IPv6 URL")`
because the authority has an unbalanced bracket (this check precedes any use
of the host validators, so the result is the same for every validator). -/
theorem extract_raises_on_unbalanced_bracket :
    extract_s3_path_from_url (fun _ => true) (fun _ => true) ("s3://[x".data) =
      UrlResult.bracketValueError := by
  decide

/-- C10 (amended): the function's own `ValueError` branch guarding a
non-`'s3'` scheme is unreachable — every `url` reaching the parse step starts
with `'s3://'` and parses with scheme `'s3'` — so the only raises that can
escape are those of `urlparse` itself, whatever its validators decide. -/
theorem extract_never_scheme_error (hostOk nfkcOk : PyStr → Bool) (url : PyStr) :
    (extract_s3_path_from_url hostOk nfkcOk url).isSchemeError = false := by
  by_cases h : startsWithList ("s3://".data) url = true
  · obtain ⟨rest, rfl⟩ := exists_of_startsWithList h
    simp only [extract_s3_path_from_url, h, Bool.not_true, Bool.false_eq_true, if_false,
      urlparse]
    rw [urlsplit_s3]
    by_cases hb : badBrackets ((removeUnsafe rest).takeWhile (fun c => !netlocDelim c)) = true
    · simp [hb, UrlResult.isSchemeError]
    · by_cases hh : bracketedHostFails hostOk
          ((removeUnsafe rest).takeWhile (fun c => !netlocDelim c)) = true
      · simp [hb, hh, UrlResult.isSchemeError]
      · by_cases hn : checknetlocFails nfkcOk
            ((removeUnsafe rest).takeWhile (fun c => !netlocDelim c)) = true
        · simp [hb, hh, hn, UrlResult.isSchemeError]
        · simp [hb, hh, hn, UrlResult.isSchemeError]
  · have h' : startsWithList ("s3://".data) url = false := by simpa using h
    simp [extract_s3_path_from_url, h', UrlResult.isSchemeError]

/-! ## Claims about `S3Connector` -/

/-- C7: `S3Connector.__init__` stores its four parameters unchanged as fields
and forwards exactly those values (with service `'s3'`) to both storage client
factory calls; `region_name` defaults to `'default'`; construction performs no
other computation on the credentials. -/
theorem s3connector_init_stores_and_forwards
    (endpoint_url access_key_id secret_access_key region_name : PyStr) :
    (S3Connector.init endpoint_url access_key_id secret_access_key
        region_name).endpoint_url = endpoint_url ∧
    (S3Connector.init endpoint_url access_key_id secret_access_key
        region_name).access_key_id = access_key_id ∧
    (S3Connector.init endpoint_url access_key_id secret_access_key
        region_name).secret_access_key = secret_access_key ∧
    (S3Connector.init endpoint_url access_key_id secret_access_key
        region_name).region_name = region_name ∧
    (S3Connector.init endpoint_url access_key_id secret_access_key
        region_name).resource_call =
      ⟨"s3".data, endpoint_url, access_key_id, secret_access_key, region_name⟩ ∧
    (S3Connector.init endpoint_url access_key_id secret_access_key
        region_name).client_call =
      ⟨"s3".data, endpoint_url, access_key_id, secret_access_key, region_name⟩ ∧
    S3Connector.initDefault endpoint_url access_key_id secret_access_key =
      S3Connector.init endpoint_url access_key_id secret_access_key ("default".data) :=
  ⟨rfl, rfl, rfl, rfl, rfl, rfl, rfl⟩

/-! ## Structure of the `download` loop -/

theorem dlLoop_written (cwd : List PyStr) (prod lp : PyStr) (ok : PyStr → Bool)
    (files : List PyStr) :
    (dlLoop cwd prod lp ok files).1 =
      ((files.filter nonDirKey).takeWhile ok).map (fun k => pyJoin lp (relpath cwd k prod)) := by
  induction files with
  | nil => rfl
  | cons k ks ih =>
    by_cases hk : nonDirKey k = true
    · by_cases ho : ok k = true
      · simp [dlLoop, hk, ho, List.filter_cons, ih]
      · simp [dlLoop, hk, ho, List.filter_cons]
    · simp [dlLoop, hk, List.filter_cons, ih]

theorem dlLoop_failKey (cwd : List PyStr) (prod lp : PyStr) (ok : PyStr → Bool)
    (files : List PyStr) :
    (dlLoop cwd prod lp ok files).2.2 =
      ((files.filter nonDirKey).dropWhile ok).head? := by
  induction files with
  | nil => rfl
  | cons k ks ih =>
    by_cases hk : nonDirKey k = true
    · by_cases ho : ok k = true
      · simp [dlLoop, hk, ho, List.filter_cons, ih]
      · simp [dlLoop, hk, ho, List.filter_cons]
    · simp [dlLoop, hk, List.filter_cons, ih]

/-- Internal: for a nonempty listing with a `.SAFE` directory name, the result
of `download` is determined by the first non-directory key whose transfer
fails (if any). -/
theorem download_result_eq (bucketKeys cwd : List PyStr) (product target : PyStr)
    (ok : PyStr → Bool)
    (h1 : listedFiles bucketKeys product ≠ [])
    (h2 : endsWithList (safeDirOf product) (".SAFE".data) = true) :
    (download bucketKeys cwd product target ok).result =
      match (((listedFiles bucketKeys product).filter nonDirKey).dropWhile ok).head? with
      | some k => DlResult.transferError k
      | none => DlResult.ok (localPathOf product target) := by
  have he : (listedFiles bucketKeys product).isEmpty = false := by
    simpa [List.isEmpty_iff] using h1
  have hl := dlLoop_failKey cwd (productSlash product) (localPathOf product target) ok
    (listedFiles bucketKeys product)
  simp only [download, he, h2, Bool.not_true, Bool.false_eq_true, if_false]
  rw [hl]
  cases (((listedFiles bucketKeys product).filter nonDirKey).dropWhile ok).head? <;> rfl

/-- Internal: for a nonempty listing with a `.SAFE` directory name, the files
written by `download` are those for the non-directory keys before the first
failing transfer. -/
theorem download_written_eq (bucketKeys cwd : List PyStr) (product target : PyStr)
    (ok : PyStr → Bool)
    (h1 : listedFiles bucketKeys product ≠ [])
    (h2 : endsWithList (safeDirOf product) (".SAFE".data) = true) :
    (download bucketKeys cwd product target ok).written =
      (((listedFiles bucketKeys product).filter nonDirKey).takeWhile ok).map
        (fun k => pyJoin (localPathOf product target)
          (relpath cwd k (productSlash product))) := by
  have he : (listedFiles bucketKeys product).isEmpty = false := by
    simpa [List.isEmpty_iff] using h1
  have hw := dlLoop_written cwd (productSlash product) (localPathOf product target) ok
    (listedFiles bucketKeys product)
  simp only [download, he, h2, Bool.not_true, Bool.false_eq_true, if_false]
  cases hfk : (dlLoop cwd (productSlash product) (localPathOf product target) ok
      (listedFiles bucketKeys product)).2.2 <;> simp [hfk, hw]

theorem dropWhile_head_false {α : Type} {p : α → Bool} :
    ∀ {l : List α} {k : α} {rest : List α}, l.dropWhile p = k :: rest → p k = false := by
  intro l
  induction l with
  | nil => intro k rest h; cases h
  | cons a l ih =>
    intro k rest h
    by_cases hp : p a = true
    · rw [List.dropWhile_cons_of_pos hp] at h
      exact ih h
    · have hp' : p a = false := by simpa using hp
      rw [List.dropWhile_cons_of_neg (by simp [hp'])] at h
      cases h
      exact hp'

/-! ## Claims about `download` -/

/-- C2: `download` raises `FileNotFoundError` exactly when the listing of the
slash-terminated product prefix is empty, and in that case no local directory
or file is created. -/
theorem download_fileNotFound_iff_empty_listing (bucketKeys cwd : List PyStr)
    (product target : PyStr) (ok : PyStr → Bool) :
    ((download bucketKeys cwd product target ok).result = DlResult.fileNotFoundError ↔
      listedFiles bucketKeys product = []) ∧
    (listedFiles bucketKeys product = [] →
      (download bucketKeys cwd product target ok).written = [] ∧
      (download bucketKeys cwd product target ok).dirs = []) := by
  by_cases h1 : listedFiles bucketKeys product = []
  · have he : (listedFiles bucketKeys product).isEmpty = true := by
      simp [List.isEmpty_iff, h1]
    simp [download, he, h1]
  · have he : (listedFiles bucketKeys product).isEmpty = false := by
      simpa [List.isEmpty_iff] using h1
    refine ⟨⟨fun hres => ?_, fun h => absurd h h1⟩, fun h => absurd h h1⟩
    by_cases h2 : endsWithList (safeDirOf product) (".SAFE".data) = true
    · rw [download_result_eq bucketKeys cwd product target ok h1 h2] at hres
      cases hh : (((listedFiles bucketKeys product).filter nonDirKey).dropWhile ok).head? with
      | none => rw [hh] at hres; cases hres
      | some k => rw [hh] at hres; cases hres
    · have h2' : endsWithList (safeDirOf product) (".SAFE".data) = false := by
        simpa using h2
      simp [download, he, h2'] at hres

theorem download_fileNotFound_iff_empty_listing_witness :
    (download [] [("home".data)] ("foo".data) (".".data) (fun _ => true)).result =
      DlResult.fileNotFoundError ∧
    (download [] [("home".data)] ("foo".data) (".".data) (fun _ => true)).written = [] ∧
    (download [] [("home".data)] ("foo".data) (".".data) (fun _ => true)).dirs = [] := by
  have h := download_fileNotFound_iff_empty_listing [] [("home".data)] ("foo".data)
    (".".data) (fun _ => true)
  exact ⟨h.1.mpr (by decide), (h.2 (by decide)).1, (h.2 (by decide)).2⟩

/-- C3: for a nonempty listing, `download` raises `ValueError` exactly when
the last path component of the product prefix (after stripping trailing
slashes) does not end with `'.SAFE'`. -/
theorem download_valueError_iff_not_safe_suffix (bucketKeys cwd : List PyStr)
    (product target : PyStr) (ok : PyStr → Bool)
    (h1 : listedFiles bucketKeys product ≠ []) :
    ((download bucketKeys cwd product target ok).result = DlResult.valueError ↔
      endsWithList (safeDirOf product) (".SAFE".data) = false) := by
  have he : (listedFiles bucketKeys product).isEmpty = false := by
    simpa [List.isEmpty_iff] using h1
  by_cases h2 : endsWithList (safeDirOf product) (".SAFE".data) = true
  · rw [download_result_eq bucketKeys cwd product target ok h1 h2]
    constructor
    · intro hres
      cases hh : (((listedFiles bucketKeys product).filter nonDirKey).dropWhile ok).head? with
      | none => rw [hh] at hres; cases hres
      | some k => rw [hh] at hres; cases hres
    · intro hf
      rw [h2] at hf
      cases hf
  · have h2' : endsWithList (safeDirOf product) (".SAFE".data) = false := by
      simpa using h2
    simp [download, he, h2']

theorem download_valueError_iff_not_safe_suffix_witness :
    listedFiles [("foo/x".data)] ("foo".data) ≠ [] ∧
    ((download [("foo/x".data)] [("home".data)] ("foo".data) (".".data)
        (fun _ => true)).result = DlResult.valueError ↔
      endsWithList (safeDirOf ("foo".data)) (".SAFE".data) = false) :=
  ⟨by decide, download_valueError_iff_not_safe_suffix [("foo/x".data)] [("home".data)]
    ("foo".data) (".".data) (fun _ => true) (by decide)⟩

/-- C9: the empty-listing check precedes the suffix check — an empty listing
raises `FileNotFoundError` and never `ValueError`, whatever the directory
name. -/
theorem download_empty_listing_checked_first (bucketKeys cwd : List PyStr)
    (product target : PyStr) (ok : PyStr → Bool)
    (h : listedFiles bucketKeys product = []) :
    (download bucketKeys cwd product target ok).result = DlResult.fileNotFoundError ∧
    (download bucketKeys cwd product target ok).result ≠ DlResult.valueError := by
  have he : (listedFiles bucketKeys product).isEmpty = true := by
    simp [List.isEmpty_iff, h]
  simp [download, he]

theorem download_empty_listing_checked_first_witness :
    listedFiles [] ("not-a-safe-name".data) = [] ∧
    (download [] [("home".data)] ("not-a-safe-name".data) (".".data)
        (fun _ => true)).result = DlResult.fileNotFoundError ∧
    (download [] [("home".data)] ("not-a-safe-name".data) (".".data)
        (fun _ => true)).result ≠ DlResult.valueError :=
  ⟨by decide, (download_empty_listing_checked_first [] [("home".data)]
      ("not-a-safe-name".data) (".".data) (fun _ => true) (by decide)).1,
    (download_empty_listing_checked_first [] [("home".data)]
      ("not-a-safe-name".data) (".".data) (fun _ => true) (by decide)).2⟩

/-- C8: a successful `download` returns `os.path.join(target, safe_dir)` where
`safe_dir` is the last path component of the product prefix, with its
`'.SAFE'` suffix kept. -/
theorem download_returns_joined_safe_dir (bucketKeys cwd : List PyStr)
    (product target : PyStr) (ok : PyStr → Bool) (ret : PyStr)
    (h : (download bucketKeys cwd product target ok).result = DlResult.ok ret) :
    ret = pyJoin target (safeDirOf product) ∧
    endsWithList (safeDirOf product) (".SAFE".data) = true := by
  by_cases h1 : listedFiles bucketKeys product = []
  · have he : (listedFiles bucketKeys product).isEmpty = true := by
      simp [List.isEmpty_iff, h1]
    simp [download, he] at h
  · by_cases h2 : endsWithList (safeDirOf product) (".SAFE".data) = true
    · rw [download_result_eq bucketKeys cwd product target ok h1 h2] at h
      cases hh : (((listedFiles bucketKeys product).filter nonDirKey).dropWhile ok).head? with
      | none =>
        rw [hh] at h
        cases h
        exact ⟨rfl, h2⟩
      | some k => rw [hh] at h; cases h
    · have he : (listedFiles bucketKeys product).isEmpty = false := by
        simpa [List.isEmpty_iff] using h1
      have h2' : endsWithList (safeDirOf product) (".SAFE".data) = false := by
        simpa using h2
      simp [download, he, h2'] at h

theorem download_returns_joined_safe_dir_witness :
    (download [("data/P.SAFE/m.xml".data)] [("home".data)] ("data/P.SAFE".data)
        (".".data) (fun _ => true)).result = DlResult.ok ("./P.SAFE".data) ∧
    "./P.SAFE".data = pyJoin (".".data) (safeDirOf ("data/P.SAFE".data)) ∧
    endsWithList (safeDirOf ("data/P.SAFE".data)) (".SAFE".data) = true :=
  ⟨by decide,
    (download_returns_joined_safe_dir [("data/P.SAFE/m.xml".data)] [("home".data)]
      ("data/P.SAFE".data) (".".data) (fun _ => true) ("./P.SAFE".data) (by decide)).1,
    (download_returns_joined_safe_dir [("data/P.SAFE/m.xml".data)] [("home".data)]
      ("data/P.SAFE".data) (".".data) (fun _ => true) ("./P.SAFE".data) (by decide)).2⟩

/-- C6: when a transfer fails, `download` aborts at the first failing
non-directory key: that key's exception is the result, the files written are
exactly those for the earlier non-directory keys (left on disk, no cleanup),
and no later key is processed. -/
theorem download_aborts_on_first_failure (bucketKeys cwd : List PyStr)
    (product target : PyStr) (ok : PyStr → Bool) (k : PyStr) (rest : List PyStr)
    (h1 : listedFiles bucketKeys product ≠ [])
    (h2 : endsWithList (safeDirOf product) (".SAFE".data) = true)
    (hk : ((listedFiles bucketKeys product).filter nonDirKey).dropWhile ok = k :: rest) :
    (download bucketKeys cwd product target ok).result = DlResult.transferError k ∧
    (download bucketKeys cwd product target ok).written =
      (((listedFiles bucketKeys product).filter nonDirKey).takeWhile ok).map
        (fun f => pyJoin (localPathOf product target) (relpath cwd f (productSlash product))) ∧
    ok k = false := by
  refine ⟨?_, download_written_eq bucketKeys cwd product target ok h1 h2,
    dropWhile_head_false hk⟩
  rw [download_result_eq bucketKeys cwd product target ok h1 h2, hk]
  rfl

theorem download_aborts_on_first_failure_witness :
    listedFiles [("data/P.SAFE/m.xml".data), ("data/P.SAFE/sub/a.jp2".data),
        ("data/P.SAFE/z.txt".data)] ("data/P.SAFE".data) ≠ [] ∧
    (download [("data/P.SAFE/m.xml".data), ("data/P.SAFE/sub/a.jp2".data),
        ("data/P.SAFE/z.txt".data)] [("home".data)] ("data/P.SAFE".data) (".".data)
        (fun f => !(f == "data/P.SAFE/sub/a.jp2".data))).result =
      DlResult.transferError ("data/P.SAFE/sub/a.jp2".data) ∧
    (download [("data/P.SAFE/m.xml".data), ("data/P.SAFE/sub/a.jp2".data),
        ("data/P.SAFE/z.txt".data)] [("home".data)] ("data/P.SAFE".data) (".".data)
        (fun f => !(f == "data/P.SAFE/sub/a.jp2".data))).written =
      [("./P.SAFE/m.xml".data)] := by
  have h := download_aborts_on_first_failure
    [("data/P.SAFE/m.xml".data), ("data/P.SAFE/sub/a.jp2".data), ("data/P.SAFE/z.txt".data)]
    [("home".data)] ("data/P.SAFE".data) (".".data)
    (fun f => !(f == "data/P.SAFE/sub/a.jp2".data))
    ("data/P.SAFE/sub/a.jp2".data) [("data/P.SAFE/z.txt".data)]
    (by decide) (by decide) (by decide)
  exact ⟨by decide, h.1, by rw [h.2.1]; decide⟩

/-! ## Clean relative keys and `relpath` on them -/

/-- A normal path component: nonempty, slash-free, and neither `'.'` nor
`'..'`.  A key whose remainder after the prefix is built from such components
is unaffected by the lexical normalization inside `os.path.relpath`. -/
def goodPart (p : PyStr) : Prop :=
  p ≠ [] ∧ (∀ c ∈ p, c ≠ '/') ∧ p ≠ ".".data ∧ p ≠ "..".data

instance goodPart.decidable (p : PyStr) : Decidable (goodPart p) := by
  unfold goodPart
  infer_instance

theorem compsAux_append_slash : ∀ (q cur b : PyStr),
    compsAux cur (q ++ '/' :: b) = compsAux cur (q ++ ['/']) ++ compsAux [] b := by
  intro q
  induction q with
  | nil =>
    intro cur b
    by_cases hc : cur.isEmpty = true
    · simp [compsAux, hc]
    · simp [compsAux, hc]
  | cons c q ih =>
    intro cur b
    by_cases hc : c = '/'
    · subst hc
      by_cases hcur : cur.isEmpty = true
      · simp only [List.cons_append, compsAux, if_pos rfl, hcur, if_true]
        simpa using ih [] b
      · simp only [List.cons_append, compsAux, if_pos rfl, hcur, if_false]
        simpa using ih [] b
    · simp only [List.cons_append, compsAux, hc, if_false]
      simpa using ih (c :: cur) b

theorem compsAux_slash_free : ∀ (p cur : PyStr), (∀ c ∈ p, c ≠ '/') →
    compsAux cur p = if (cur.reverse ++ p).isEmpty then [] else [cur.reverse ++ p] := by
  intro p
  induction p with
  | nil =>
    intro cur _
    by_cases hc : cur.isEmpty = true
    · have : cur = [] := by simpa [List.isEmpty_iff] using hc
      simp [compsAux, this]
    · have : cur ≠ [] := by simpa [List.isEmpty_iff] using hc
      simp [compsAux, List.isEmpty_iff, this, hc]
  | cons c p ih =>
    intro cur hp
    have hc : c ≠ '/' := hp c (by simp)
    have hrec := ih (c :: cur) (fun d hd => hp d (by simp [hd]))
    simp only [compsAux, hc, if_false]
    rw [hrec]
    simp [List.isEmpty_iff]

theorem compsAux_slash_free_slash : ∀ (p cur : PyStr), (∀ c ∈ p, c ≠ '/') →
    compsAux cur (p ++ ['/']) =
      if (cur.reverse ++ p).isEmpty then [] else [cur.reverse ++ p] := by
  intro p
  induction p with
  | nil =>
    intro cur _
    by_cases hc : cur.isEmpty = true
    · have : cur = [] := by simpa [List.isEmpty_iff] using hc
      simp [compsAux, this]
    · have hne : cur ≠ [] := by simpa [List.isEmpty_iff] using hc
      simp [compsAux, List.isEmpty_iff, hne, hc]
  | cons c p ih =>
    intro cur hp
    have hc : c ≠ '/' := hp c (by simp)
    have hrec := ih (c :: cur) (fun d hd => hp d (by simp [hd]))
    simp only [List.cons_append, compsAux, hc, if_false, List.append_eq]
    rw [hrec]
    simp [List.isEmpty_iff]

theorem compsAux_joinSlash : ∀ (parts : List PyStr), parts ≠ [] →
    (∀ p ∈ parts, goodPart p) → compsAux [] (joinSlash parts) = parts := by
  intro parts
  induction parts with
  | nil => intro h _; exact absurd rfl h
  | cons p ps ih =>
    intro _ hgood
    have hp := hgood p (by simp)
    cases ps with
    | nil =>
      have := compsAux_slash_free p [] hp.2.1
      simpa [joinSlash, List.isEmpty_iff, hp.1] using this
    | cons q qs =>
      have hrec := ih (by simp) (fun r hr => hgood r (by simp [hr]))
      simp only [joinSlash]
      rw [compsAux_append_slash p [] (joinSlash (q :: qs)), hrec]
      have h2 : compsAux [] (p ++ ['/']) = [p] := by
        have := compsAux_slash_free_slash p [] hp.2.1
        simpa [List.isEmpty_iff, hp.1] using this
      rw [h2]
      rfl

theorem resolveComps_good : ∀ (parts : List PyStr) (acc : List PyStr),
    (∀ p ∈ parts, p ≠ ".".data ∧ p ≠ "..".data) →
    resolveComps acc parts = acc ++ parts := by
  intro parts
  induction parts with
  | nil => intro acc _; simp [resolveComps]
  | cons p ps ih =>
    intro acc hgood
    have hp := hgood p (by simp)
    have hrec := ih (acc ++ [p]) (fun r hr => hgood r (by simp [hr]))
    simp only [resolveComps, List.foldl_cons] at hrec ⊢
    rw [show resolveComp acc p = acc ++ [p] from by simp [resolveComp, hp.1, hp.2], hrec]
    simp

theorem commonPrefixLen_append : ∀ (S t : List PyStr),
    commonPrefixLen S (S ++ t) = S.length := by
  intro S
  induction S with
  | nil => intro t; rfl
  | cons a as ih => intro t; simp [commonPrefixLen, ih]

theorem startsWithSlash_append (a b : PyStr) (h : a ≠ []) :
    startsWithList ['/'] (a ++ b) = startsWithList ['/'] a := by
  cases a with
  | nil => exact absurd rfl h
  | cons c cs => simp [startsWithList]

theorem exists_append_slash_of_endsWith {s : PyStr}
    (h : endsWithList s ['/'] = true) : ∃ q, s = q ++ ['/'] := by
  obtain ⟨r, hr⟩ := exists_of_startsWithList (by simpa [endsWithList] using h)
  refine ⟨r.reverse, ?_⟩
  have := congrArg List.reverse hr
  simpa using this

theorem productSlash_split (product : PyStr) :
    ∃ q, productSlash product = q ++ ['/'] := by
  unfold productSlash
  by_cases h : endsWithList product ['/'] = true
  · obtain ⟨q, hq⟩ := exists_append_slash_of_endsWith h
    subst hq
    exact ⟨q, by simp [h]⟩
  · have h' : endsWithList product ['/'] = false := by simpa using h
    exact ⟨product, by simp [h']⟩

/-- `os.path.relpath` on a key that extends a slash-terminated prefix by a
normalized relative suffix returns exactly that suffix. -/
theorem relpath_clean (cwd : List PyStr) (q : PyStr) (parts : List PyStr)
    (hne : parts ≠ []) (hgood : ∀ p ∈ parts, goodPart p) :
    relpath cwd ((q ++ ['/']) ++ joinSlash parts) (q ++ ['/']) = joinSlash parts := by
  have hstart : startsWithList ['/'] ((q ++ ['/']) ++ joinSlash parts) =
      startsWithList ['/'] (q ++ ['/']) :=
    startsWithSlash_append (q ++ ['/']) (joinSlash parts) (by simp)
  have hcomps : compsAux [] ((q ++ ['/']) ++ joinSlash parts) =
      compsAux [] (q ++ ['/']) ++ parts := by
    rw [show (q ++ ['/']) ++ joinSlash parts = q ++ '/' :: joinSlash parts from by simp,
      compsAux_append_slash, compsAux_joinSlash parts hne hgood]
  have hres : ∀ base : List PyStr,
      resolveComps base (compsAux [] (q ++ ['/']) ++ parts) =
        resolveComps base (compsAux [] (q ++ ['/'])) ++ parts := by
    intro base
    unfold resolveComps
    rw [List.foldl_append]
    exact resolveComps_good parts _ (fun p hp => ⟨(hgood p hp).2.2.1, (hgood p hp).2.2.2⟩)
  unfold relpath absComps
  rw [hstart, hcomps, hres]
  simp only [commonPrefixLen_append, Nat.sub_self, List.replicate_zero, List.nil_append,
    List.drop_left]
  cases parts with
  | nil => exact absurd rfl hne
  | cons p ps => rfl

theorem joinSlash_not_abs (parts : List PyStr) (hne : parts ≠ [])
    (hgood : ∀ p ∈ parts, goodPart p) :
    startsWithList ['/'] (joinSlash parts) = false := by
  cases parts with
  | nil => exact absurd rfl hne
  | cons p ps =>
    have hp := hgood p (by simp)
    cases p with
    | nil => exact absurd rfl hp.1
    | cons c p' =>
      have hc : c ≠ '/' := hp.2.1 c (by simp)
      have hcb : ('/' == c) = false := by simpa using Ne.symm hc
      cases ps with
      | nil => simp [joinSlash, startsWithList, hcb]
      | cons q qs => simp [joinSlash, startsWithList, hcb]

theorem pyJoin_right_inj {a s1 s2 : PyStr}
    (h1 : startsWithList ['/'] s1 = false) (h2 : startsWithList ['/'] s2 = false)
    (h : pyJoin a s1 = pyJoin a s2) : s1 = s2 := by
  unfold pyJoin at h
  rw [h1, h2] at h
  simp only [Bool.false_eq_true, if_false] at h
  by_cases ha : (a.isEmpty || endsWithList a ['/']) = true
  · rw [if_pos ha, if_pos ha] at h
    exact List.append_cancel_left h
  · rw [if_neg ha, if_neg ha] at h
    have := List.append_cancel_left h
    exact List.cons.inj this |>.2

/-- C1 counterexample: for the listing `['P.SAFE/a//b']` under prefix
`'P.SAFE/'`, the file is written at `out/P.SAFE/a/b` — `os.path.relpath`
normalizes the double slash — which is not the literal relative path `a//b`
of the key under the prefix joined below the destination. -/
theorem download_relative_path_counterexample :
    (download [("P.SAFE/a//b".data)] [("home".data)] ("P.SAFE".data) ("out".data)
        (fun _ => true)).result = DlResult.ok ("out/P.SAFE".data) ∧
    (download [("P.SAFE/a//b".data)] [("home".data)] ("P.SAFE".data) ("out".data)
        (fun _ => true)).written = [("out/P.SAFE/a/b".data)] ∧
    ("out/P.SAFE/a/b".data : PyStr) ≠
      pyJoin (localPathOf ("P.SAFE".data) ("out".data))
        (("P.SAFE/a//b".data).drop (productSlash ("P.SAFE".data)).length) := by
  decide

/-- C1 (amended): after a fully successful `download` over a nonempty listing
of a `.SAFE` prefix in which every non-directory key extends the
slash-terminated prefix by normalized components (nonempty, slash-free,
neither `'.'` nor `'..'`), the files written are exactly one per
non-directory key, each at the relative path of the key under the prefix
below the returned destination directory, and nothing else is written; keys
ending with `'/'` produce no file.  (For other keys the file lands at the
`os.path.relpath`-normalized path instead, which may differ from the literal
remainder or escape the destination.) -/
theorem download_mirror_clean_listing (bucketKeys cwd : List PyStr)
    (product target : PyStr) (ok : PyStr → Bool)
    (h1 : listedFiles bucketKeys product ≠ [])
    (h2 : endsWithList (safeDirOf product) (".SAFE".data) = true)
    (hok : ∀ k ∈ listedFiles bucketKeys product, ok k = true)
    (hclean : ∀ k ∈ listedFiles bucketKeys product, nonDirKey k = true →
      ∃ parts : List PyStr, parts ≠ [] ∧ (∀ p ∈ parts, goodPart p) ∧
        k = productSlash product ++ joinSlash parts) :
    (download bucketKeys cwd product target ok).result =
      DlResult.ok (localPathOf product target) ∧
    (download bucketKeys cwd product target ok).written =
      ((listedFiles bucketKeys product).filter nonDirKey).map
        (fun k => pyJoin (localPathOf product target)
          (k.drop (productSlash product).length)) ∧
    (bucketKeys.Nodup → (download bucketKeys cwd product target ok).written.Nodup) := by
  obtain ⟨q, hq⟩ := productSlash_split product
  have hokf : ∀ k ∈ (listedFiles bucketKeys product).filter nonDirKey, ok k = true :=
    fun k hk => hok k (List.mem_of_mem_filter hk)
  have hdrop : ((listedFiles bucketKeys product).filter nonDirKey).dropWhile ok = [] :=
    List.dropWhile_eq_nil_iff.mpr hokf
  have htake : ((listedFiles bucketKeys product).filter nonDirKey).takeWhile ok =
      (listedFiles bucketKeys product).filter nonDirKey :=
    List.takeWhile_eq_self_iff.mpr hokf
  have hres := download_result_eq bucketKeys cwd product target ok h1 h2
  rw [hdrop] at hres
  have hw := download_written_eq bucketKeys cwd product target ok h1 h2
  rw [htake] at hw
  have hmap : ∀ k ∈ (listedFiles bucketKeys product).filter nonDirKey,
      pyJoin (localPathOf product target) (relpath cwd k (productSlash product)) =
        pyJoin (localPathOf product target) (k.drop (productSlash product).length) := by
    intro k hk
    obtain ⟨parts, hne, hgood, hkey⟩ :=
      hclean k (List.mem_of_mem_filter hk) (List.of_mem_filter hk)
    rw [hkey, hq, relpath_clean cwd q parts hne hgood, List.drop_left]
  have hwd : (download bucketKeys cwd product target ok).written =
      ((listedFiles bucketKeys product).filter nonDirKey).map
        (fun k => pyJoin (localPathOf product target)
          (k.drop (productSlash product).length)) := by
    rw [hw]
    exact List.map_congr_left hmap
  refine ⟨by simpa using hres, hwd, ?_⟩
  intro hnd
  rw [hwd]
  have hnd2 : ((listedFiles bucketKeys product).filter nonDirKey).Nodup :=
    List.Nodup.filter _ (List.Nodup.filter _ hnd)
  refine List.Nodup.map_on ?_ hnd2
  intro x hx y hy hxy
  obtain ⟨px, hnex, hgx, hkx⟩ :=
    hclean x (List.mem_of_mem_filter hx) (List.of_mem_filter hx)
  obtain ⟨py, hney, hgy, hky⟩ :=
    hclean y (List.mem_of_mem_filter hy) (List.of_mem_filter hy)
  rw [hkx, hky, hq, List.drop_left, List.drop_left] at hxy
  have hsuf := pyJoin_right_inj (joinSlash_not_abs px hnex hgx)
    (joinSlash_not_abs py hney hgy) hxy
  rw [hkx, hky, hsuf]

theorem download_mirror_clean_listing_witness :
    (download [("data/P.SAFE/m.xml".data), ("data/P.SAFE/sub/".data),
        ("data/P.SAFE/sub/a.jp2".data)] [("home".data)] ("data/P.SAFE".data)
        (".".data) (fun _ => true)).result = DlResult.ok ("./P.SAFE".data) ∧
    (download [("data/P.SAFE/m.xml".data), ("data/P.SAFE/sub/".data),
        ("data/P.SAFE/sub/a.jp2".data)] [("home".data)] ("data/P.SAFE".data)
        (".".data) (fun _ => true)).written =
      [("./P.SAFE/m.xml".data), ("./P.SAFE/sub/a.jp2".data)] := by
  have h := download_mirror_clean_listing
    [("data/P.SAFE/m.xml".data), ("data/P.SAFE/sub/".data), ("data/P.SAFE/sub/a.jp2".data)]
    [("home".data)] ("data/P.SAFE".data) (".".data) (fun _ => true)
    (by decide) (by decide) (by decide)
    (by
      intro k hk hndk
      have hl : listedFiles [("data/P.SAFE/m.xml".data), ("data/P.SAFE/sub/".data),
          ("data/P.SAFE/sub/a.jp2".data)] ("data/P.SAFE".data) =
          [("data/P.SAFE/m.xml".data), ("data/P.SAFE/sub/".data),
            ("data/P.SAFE/sub/a.jp2".data)] := by decide
      rw [hl] at hk
      simp only [List.mem_cons, List.not_mem_nil, or_false] at hk
      rcases hk with rfl | rfl | rfl
      · exact ⟨[("m.xml".data)], by decide, by decide, by decide⟩
      · exact absurd hndk (by decide)
      · exact ⟨[("sub".data), ("a.jp2".data)], by decide, by decide, by decide⟩)
  refine ⟨?_, ?_⟩
  · rw [h.1]; decide
  · rw [h.2.1]; decide
